import Mathlib

/-!
# Verification of the better-auth-rate-limiter core

Shallow embedding of the fixed-window rate limiter:

* `src/types.ts`    — `RateLimitEntry`, `CheckRateLimitResponse`
* `src/index.ts`    — `matchPath`, `shouldRateLimit`, `getRetryAfter`,
                      `resolveIdentifier`, and the `checkRateLimit` endpoint body
* `src/storage.ts`  — `createMemoryStorage`, `createSecondaryStorageWrapper`,
                      `createDatabaseStorage`

JavaScript millisecond timestamps, counters and limits are embedded as `Int`
(`Date.now()` values are integers, counts start at 1 and are only ever
incremented by 1, so no floating-point behaviour is exercised).  `Date.now()`
is passed explicitly as a `now : Int` argument.  Asynchronous storage calls
are embedded as explicit state passing.
-/

namespace RateLimiter

/-- `RateLimitEntry` from `src/types.ts`: one fixed window for one key.
`lastRequest` is the window start (ms since epoch). -/
structure RateLimitEntry where
  key : String
  count : Int
  lastRequest : Int
  deriving Repr, DecidableEq

/-- `CheckRateLimitResponse` from `src/types.ts`; optional fields are `Option`. -/
structure CheckRateLimitResponse where
  success : Bool
  limit : Int
  remaining : Int
  retryAfter : Option Int := none
  resetAt : Option Int := none
  message : Option String := none
  deriving Repr, DecidableEq

/-- `RATE_LIMITER_ERROR_CODES.RATE_LIMITED.message` from `src/error-codes.ts`. -/
def rateLimitedMessage : String := "Too many requests. Please try again later."

/-- `shouldRateLimit` from `src/index.ts` (lines 75–84):
`timeSinceLastRequest < windowMs && data.count >= max`. -/
def shouldRateLimit (max window : Int) (data : RateLimitEntry) (now : Int) : Bool :=
  decide (now - data.lastRequest < window * 1000) && decide (max ≤ data.count)

/-- `getRetryAfter` from `src/index.ts` (lines 86–90):
`Math.ceil((lastRequest + windowMs - now) / 1000)`.  The exact real division
followed by `Math.ceil` is embedded as the integer ceiling
`⌈x / 1000⌉ = -⌊-x / 1000⌋`; `getRetryAfter_eq_ceil` below proves this equals
the source's `⌈(x : ℚ) / 1000⌉`. -/
def getRetryAfter (lastRequest window now : Int) : Int :=
  -((-(lastRequest + window * 1000 - now)) / 1000)

/-- The embedding of `getRetryAfter` agrees with the source's
`Math.ceil((lastRequest + windowMs - now) / 1000)` read as exact rational
division followed by ceiling. -/
theorem getRetryAfter_eq_ceil (lastRequest window now : Int) :
    getRetryAfter lastRequest window now =
      ⌈((lastRequest + window * 1000 - now : Int) : ℚ) / 1000⌉ := by
  have h : ((lastRequest + window * 1000 - now : Int) : ℚ) / 1000 =
      -((((-(lastRequest + window * 1000 - now) : Int)) : ℚ) / ((1000 : ℕ) : ℚ)) := by
    push_cast
    ring
  rw [h, Int.ceil_neg, Rat.floor_intCast_div_natCast]
  rfl

/-- A write the endpoint issues against `storage.set`: `create` is a `set`
without the `update` flag, `update` is a `set` with `update = true`. -/
inductive StoreWrite where
  | create (e : RateLimitEntry)
  | update (e : RateLimitEntry)
  deriving Repr, DecidableEq

/-- The body of the `checkRateLimit` endpoint from `src/index.ts`
(lines 212–265), after the rule and identifier have been resolved and the
entry `data` has been read from storage.  Returns the response together with
the storage write performed (`none` on the rejection path, which returns
before any `storage.set`).  Branch order mirrors the source:
rejection check, absent-entry create, elapsed-window reset (strict
`timeSinceLastRequest > windowMs`), then in-window increment. -/
def checkCore (currentMax currentWindow now : Int) (storageKey : String)
    (data : Option RateLimitEntry) :
    CheckRateLimitResponse × Option StoreWrite :=
  let windowMs := currentWindow * 1000
  match data with
  | none =>
      ({ success := true, limit := currentMax, remaining := currentMax - 1,
         resetAt := some (now + windowMs) },
       some (.create { key := storageKey, count := 1, lastRequest := now }))
  | some d =>
      if shouldRateLimit currentMax currentWindow d now then
        ({ success := false, limit := currentMax, remaining := 0,
           retryAfter := some (getRetryAfter d.lastRequest currentWindow now),
           resetAt := some (d.lastRequest + windowMs),
           message := some rateLimitedMessage },
         none)
      else if now - d.lastRequest > windowMs then
        ({ success := true, limit := currentMax, remaining := currentMax - 1,
           resetAt := some (now + windowMs) },
         some (.update { d with count := 1, lastRequest := now }))
      else
        ({ success := true, limit := currentMax,
           remaining := max 0 (currentMax - (d.count + 1)),
           resetAt := some (d.lastRequest + windowMs) },
         some (.update { d with count := d.count + 1 }))

/-- One endpoint call against an ideal single-key store that returns exactly
the last value written (the abstract `RateLimitStorage` contract). -/
def checkStep (currentMax currentWindow : Int) (storageKey : String) (now : Int)
    (st : Option RateLimitEntry) :
    CheckRateLimitResponse × Option RateLimitEntry :=
  match checkCore currentMax currentWindow now storageKey st with
  | (resp, none) => (resp, st)
  | (resp, some (.create e)) => (resp, some e)
  | (resp, some (.update e)) => (resp, some e)

/-- Run a sequence of requests (given by their `Date.now()` values) through a
per-request step function, collecting the responses and the final store
state. -/
def runSteps {σ : Type} (step : Int → σ → CheckRateLimitResponse × σ) :
    List Int → σ → List CheckRateLimitResponse × σ
  | [], st => ([], st)
  | t :: ts, st =>
      let out := step t st
      let rest := runSteps step ts out.2
      (out.1 :: rest.1, rest.2)

/-- C2 counterexample: at `now - lastRequest = windowMs` exactly (here
`window = 1` s, entry `⟨"k", 3, 0⟩`, `now = 1000`), the code does **not**
reset the window: it increments the counter (write `update ⟨"k", 4, 0⟩`,
`remaining = 1`) instead of the claimed overwrite with `count = 1,
windowStart = now` and `remaining = maxRequests - 1 = 4`. -/
theorem elapsed_reset_boundary_cex :
    ((1000 : Int) - 0 ≥ 1 * 1000) ∧
    (checkCore 5 1 1000 "k" (some ⟨"k", 3, 0⟩)).1.remaining ≠ 5 - 1 ∧
    (checkCore 5 1 1000 "k" (some ⟨"k", 3, 0⟩)).2 ≠ some (.update ⟨"k", 1, 1000⟩) ∧
    (checkCore 5 1 1000 "k" (some ⟨"k", 3, 0⟩)).1.remaining = 1 ∧
    (checkCore 5 1 1000 "k" (some ⟨"k", 3, 0⟩)).2 = some (.update ⟨"k", 4, 0⟩) := by
  decide

/-- C2 (amended): the reset boundary is strict.  For every stored entry with
`now - entry.lastRequest > windowMs`, the engine overwrites the entry with
`count = 1, lastRequest = now` regardless of the prior count and returns
`success = true, limit = maxRequests, remaining = maxRequests - 1,
resetAt = now + windowMs`. -/
theorem elapsed_reset_amended (currentMax currentWindow now : Int) (key : String)
    (d : RateLimitEntry) (h : now - d.lastRequest > currentWindow * 1000) :
    checkCore currentMax currentWindow now key (some d) =
      ({ success := true, limit := currentMax, remaining := currentMax - 1,
         resetAt := some (now + currentWindow * 1000) },
       some (.update { d with count := 1, lastRequest := now })) := by
  have h1 : ¬ (now - d.lastRequest < currentWindow * 1000) := by omega
  simp [checkCore, shouldRateLimit, h1, h]

/-- Witness for C2 (amended) at `window = 1` s, entry `⟨"k", 3, 0⟩`,
`now = 2001`. -/
theorem elapsed_reset_amended_witness :
    ((2001 : Int) - 0 > 1 * 1000) ∧
    checkCore 5 1 2001 "k" (some ⟨"k", 3, 0⟩) =
      ({ success := true, limit := 5, remaining := 4, resetAt := some 3001 },
       some (.update ⟨"k", 1, 2001⟩)) :=
  ⟨by decide,
   (elapsed_reset_amended 5 1 2001 "k" ⟨"k", 3, 0⟩ (by decide)).trans (by decide)⟩

/-- C5: a rejected request (entry present, window live, count at or over the
limit) performs no storage write: the rejection branch returns before any
`storage.set`, so the stored entry is unchanged and quota is not consumed. -/
theorem reject_no_store_write (currentMax currentWindow now : Int) (key : String)
    (d : RateLimitEntry)
    (hlive : now - d.lastRequest < currentWindow * 1000)
    (hcount : currentMax ≤ d.count) :
    (checkCore currentMax currentWindow now key (some d)).2 = none ∧
    (checkStep currentMax currentWindow key now (some d)).2 = some d ∧
    (checkCore currentMax currentWindow now key (some d)).1.success = false := by
  have h1 : shouldRateLimit currentMax currentWindow d now = true := by
    simp [shouldRateLimit, hlive, hcount]
  simp [checkCore, checkStep, h1]

/-- Witness for C5 at `max = 1`, `window = 1` s, entry `⟨"k", 1, 0⟩`,
`now = 500`. -/
theorem reject_no_store_write_witness :
    ((500 : Int) - 0 < 1 * 1000) ∧ ((1 : Int) ≤ 1) ∧
    (checkCore 1 1 500 "k" (some ⟨"k", 1, 0⟩)).2 = none ∧
    (checkStep 1 1 "k" 500 (some ⟨"k", 1, 0⟩)).2 = some ⟨"k", 1, 0⟩ ∧
    (checkCore 1 1 500 "k" (some ⟨"k", 1, 0⟩)).1.success = false :=
  ⟨by decide, by decide,
   reject_no_store_write 1 1 500 "k" ⟨"k", 1, 0⟩ (by decide) (by decide)⟩

/-- C6: an admitted request with a live stored window (entry present,
`now - lastRequest ≤ windowMs`, count under the limit) writes back the entry
with only `count` incremented — `lastRequest` (the window start) is unchanged
— and reports `resetAt = lastRequest + windowMs`; hence `resetAt` is the same
value for every request observed within the same live window. -/
theorem live_window_non_sliding (currentMax currentWindow now : Int) (key : String)
    (d : RateLimitEntry)
    (hunder : d.count < currentMax)
    (hlive : now - d.lastRequest ≤ currentWindow * 1000) :
    (checkStep currentMax currentWindow key now (some d)).2 =
      some { d with count := d.count + 1 } ∧
    ({ d with count := d.count + 1 } : RateLimitEntry).lastRequest = d.lastRequest ∧
    (checkCore currentMax currentWindow now key (some d)).1.resetAt =
      some (d.lastRequest + currentWindow * 1000) ∧
    (checkCore currentMax currentWindow now key (some d)).1.success = true := by
  have h1 : ¬ (currentMax ≤ d.count) := by omega
  have h2 : ¬ (now - d.lastRequest > currentWindow * 1000) := by omega
  simp [checkCore, checkStep, shouldRateLimit, h1, h2]

/-- Witness for C6 at `max = 5`, `window = 1` s, entry `⟨"k", 2, 0⟩`,
`now = 400`. -/
theorem live_window_non_sliding_witness :
    ((2 : Int) < 5) ∧ ((400 : Int) - 0 ≤ 1 * 1000) ∧
    (checkStep 5 1 "k" 400 (some ⟨"k", 2, 0⟩)).2 = some ⟨"k", 3, 0⟩ ∧
    (checkCore 5 1 400 "k" (some ⟨"k", 2, 0⟩)).1.resetAt = some 1000 :=
  ⟨by decide, by decide,
   (live_window_non_sliding 5 1 400 "k" ⟨"k", 2, 0⟩ (by decide) (by decide)).1,
   (live_window_non_sliding 5 1 400 "k" ⟨"k", 2, 0⟩ (by decide) (by decide)).2.2.1⟩

/-- C10: every rejected request carries a `retryAfter` that is an integer of
at least 1 second — rejection requires `now - lastRequest < windowMs`, so
`lastRequest + windowMs - now ≥ 1` ms and its ceiling-divide by 1000 is at
least 1. -/
theorem reject_retry_after_ge_one (currentMax currentWindow now : Int)
    (key : String) (data : Option RateLimitEntry)
    (h : (checkCore currentMax currentWindow now key data).1.success = false) :
    ∃ r, (checkCore currentMax currentWindow now key data).1.retryAfter = some r ∧
      1 ≤ r := by
  match data with
  | none => simp [checkCore] at h
  | some d =>
    by_cases hs : shouldRateLimit currentMax currentWindow d now
    · refine ⟨getRetryAfter d.lastRequest currentWindow now, by simp [checkCore, hs], ?_⟩
      have hlt : now - d.lastRequest < currentWindow * 1000 := by
        have := hs
        simp only [shouldRateLimit, Bool.and_eq_true, decide_eq_true_eq] at this
        exact this.1
      unfold getRetryAfter
      omega
    · exfalso
      by_cases h2 : now - d.lastRequest > currentWindow * 1000 <;>
        simp [checkCore, hs, h2] at h

/-- Witness for C10 at `max = 1`, `window = 1` s, entry `⟨"k", 1, 0⟩`,
`now = 500` (the rejection there advertises `retryAfter = 1`). -/
theorem reject_retry_after_ge_one_witness :
    (checkCore 1 1 500 "k" (some ⟨"k", 1, 0⟩)).1.success = false ∧
    ∃ r, (checkCore 1 1 500 "k" (some ⟨"k", 1, 0⟩)).1.retryAfter = some r ∧
      1 ≤ r :=
  ⟨by decide, reject_retry_after_ge_one 1 1 500 "k" (some ⟨"k", 1, 0⟩) (by decide)⟩

/-- Unfolding equation for `runSteps` on a nonempty request list. -/
theorem runSteps_cons {σ : Type} (step : Int → σ → CheckRateLimitResponse × σ)
    (t : Int) (ts : List Int) (st : σ) :
    runSteps step (t :: ts) st =
      ((step t st).1 :: (runSteps step ts (step t st).2).1,
       (runSteps step ts (step t st).2).2) := rfl

/-- Helper for C1: running a batch of requests that all fall inside the live
window of the stored entry `⟨key, c, t0⟩` (with `1 ≤ c ≤ N`), request `i`
(0-based) is admitted with `remaining = N - (c + i + 1)` while `c + i < N`
and rejected with `remaining = 0` once `N ≤ c + i`. -/
theorem mono_cons_aux (N W : Int) (key : String) (t0 : Int) :
    ∀ (ts : List Int) (c : Int), 1 ≤ c → c ≤ N →
      (∀ t ∈ ts, 0 ≤ t - t0 ∧ t - t0 < W * 1000) →
      ∀ i : Nat, i < ts.length →
      ∃ r, ((runSteps (checkStep N W key) ts (some ⟨key, c, t0⟩)).1)[i]? = some r ∧
        (c + (i : Int) < N → r.success = true ∧ r.remaining = N - (c + (i : Int) + 1)) ∧
        (N ≤ c + (i : Int) → r.success = false ∧ r.remaining = 0) := by
  intro ts
  induction ts with
  | nil =>
    intro c _ _ _ i hi
    simp at hi
  | cons t ts ih =>
    intro c hc1 hcN hts i hi
    obtain ⟨ht0, htW⟩ := hts t (List.mem_cons_self t ts)
    have hts' : ∀ t' ∈ ts, 0 ≤ t' - t0 ∧ t' - t0 < W * 1000 := by
      intro t' ht'
      exact hts t' (List.mem_cons_of_mem t ht')
    by_cases hlt : c < N
    · have h1 : ¬ (N ≤ c) := by omega
      have h2 : ¬ (t - t0 > W * 1000) := by omega
      have hstep : checkStep N W key t (some ⟨key, c, t0⟩) =
          ({ success := true, limit := N, remaining := max 0 (N - (c + 1)),
             resetAt := some (t0 + W * 1000) }, some ⟨key, c + 1, t0⟩) := by
        simp [checkStep, checkCore, shouldRateLimit, h1, h2]
      cases i with
      | zero =>
        refine ⟨{ success := true, limit := N, remaining := max 0 (N - (c + 1)),
                  resetAt := some (t0 + W * 1000) }, ?_, ?_, ?_⟩
        · simp [runSteps_cons, hstep]
        · intro _
          refine ⟨rfl, ?_⟩
          show max (0 : Int) (N - (c + 1)) = N - (c + ((0 : Nat) : Int) + 1)
          rw [max_eq_right (by omega : N - (c + 1) ≥ (0 : Int))]
          push_cast
          ring
        · intro hge
          exfalso
          simp only [Nat.cast_zero, add_zero] at hge
          omega
      | succ j =>
        obtain ⟨r, hr, hr1, hr2⟩ :=
          ih (c + 1) (by omega) (by omega) hts' j (by simpa using hi)
        refine ⟨r, ?_, ?_, ?_⟩
        · rw [runSteps_cons, hstep]
          simpa using hr
        · intro hcond
          have h : c + 1 + (j : Int) < N := by push_cast at hcond; omega
          refine ⟨(hr1 h).1, ?_⟩
          rw [(hr1 h).2]
          push_cast
          ring
        · intro hcond
          exact hr2 (by push_cast at hcond; omega)
    · have h1 : N ≤ c := by omega
      have hstep : checkStep N W key t (some ⟨key, c, t0⟩) =
          ({ success := false, limit := N, remaining := 0,
             retryAfter := some (getRetryAfter t0 W t),
             resetAt := some (t0 + W * 1000),
             message := some rateLimitedMessage }, some ⟨key, c, t0⟩) := by
        simp [checkStep, checkCore, shouldRateLimit, h1, htW]
      cases i with
      | zero =>
        refine ⟨{ success := false, limit := N, remaining := 0,
                  retryAfter := some (getRetryAfter t0 W t),
                  resetAt := some (t0 + W * 1000),
                  message := some rateLimitedMessage }, ?_, ?_, ?_⟩
        · simp [runSteps_cons, hstep]
        · intro hcond
          exfalso
          simp only [Nat.cast_zero, add_zero] at hcond
          omega
        · intro _
          exact ⟨rfl, rfl⟩
      | succ j =>
        obtain ⟨r, hr, hr1, hr2⟩ := ih c hc1 hcN hts' j (by simpa using hi)
        refine ⟨r, ?_, ?_, ?_⟩
        · rw [runSteps_cons, hstep]
          simpa using hr
        · intro hcond
          exfalso
          push_cast at hcond
          omega
        · intro _
          exact hr2 (by omega)

/-- C1: monotonic consumption under a live window.  For `maxRequests = N ≥ 1`
and a sequence of requests for the same key all falling inside one live
window (every timestamp within `windowMs` of the first), the k-th request
(k = i + 1) is admitted with `remaining = N - k` while `k ≤ N`, and every
request with `k > N` — in particular the (N+1)-th — is rejected with
`success = false` and `remaining = 0`; equality of the stored count with
`maxRequests` rejects, never admits. -/
theorem monotonic_consumption (N W : Int) (hN : 1 ≤ N) (key : String) (t0 : Int)
    (ts : List Int)
    (hts : ∀ t ∈ t0 :: ts, 0 ≤ t - t0 ∧ t - t0 < W * 1000)
    (i : Nat) (hi : i < (t0 :: ts).length) :
    ∃ r, ((runSteps (checkStep N W key) (t0 :: ts) none).1)[i]? = some r ∧
      ((i : Int) + 1 ≤ N → r.success = true ∧ r.remaining = N - ((i : Int) + 1)) ∧
      (N < (i : Int) + 1 → r.success = false ∧ r.remaining = 0) := by
  have hstep0 : checkStep N W key t0 none =
      ({ success := true, limit := N, remaining := N - 1,
         resetAt := some (t0 + W * 1000) }, some ⟨key, 1, t0⟩) := by
    simp [checkStep, checkCore]
  have hts' : ∀ t ∈ ts, 0 ≤ t - t0 ∧ t - t0 < W * 1000 := by
    intro t ht
    exact hts t (List.mem_cons_of_mem t0 ht)
  cases i with
  | zero =>
    refine ⟨{ success := true, limit := N, remaining := N - 1,
              resetAt := some (t0 + W * 1000) }, ?_, ?_, ?_⟩
    · simp [runSteps_cons, hstep0]
    · intro _
      refine ⟨rfl, ?_⟩
      show N - 1 = N - (((0 : Nat) : Int) + 1)
      push_cast
      ring
    · intro hcond
      exfalso
      simp only [Nat.cast_zero, zero_add] at hcond
      omega
  | succ j =>
    obtain ⟨r, hr, hr1, hr2⟩ :=
      mono_cons_aux N W key t0 ts 1 le_rfl hN hts' j (by simpa using hi)
    refine ⟨r, ?_, ?_, ?_⟩
    · rw [runSteps_cons, hstep0]
      simpa using hr
    · intro hcond
      have h : 1 + (j : Int) < N := by push_cast at hcond; omega
      refine ⟨(hr1 h).1, ?_⟩
      rw [(hr1 h).2]
      push_cast
      ring
    · intro hcond
      exact hr2 (by push_cast at hcond; omega)

/-- Witness for C1: `maxRequests = 2`, `window = 1` s, requests at
`t = 0, 100, 200` — the third request (index 2) is the (N+1)-th. -/
theorem monotonic_consumption_witness :
    ((1 : Int) ≤ 2) ∧
    (∀ t ∈ [(0 : Int), 100, 200], 0 ≤ t - 0 ∧ t - 0 < 1 * 1000) ∧
    ∃ r, ((runSteps (checkStep 2 1 "k") [0, 100, 200] none).1)[2]? = some r ∧
      (((2 : Nat) : Int) + 1 ≤ 2 → r.success = true ∧
        r.remaining = 2 - (((2 : Nat) : Int) + 1)) ∧
      (2 < ((2 : Nat) : Int) + 1 → r.success = false ∧ r.remaining = 0) :=
  ⟨by decide, by decide,
   monotonic_consumption 2 1 (by decide) "k" 0 [100, 200] (by decide) 2 (by decide)⟩
/-- The identifier string built by `resolveIdentifier` (`src/index.ts`,
lines 117 and 128): the identity base (`user:${session.user.id}` or the
client IP) joined with the request path by `"|"`. -/
def identifierOf (idBase path : String) : String := idBase ++ "|" ++ path

/-- `src/index.ts` line 211: the storage key is `rl:${identifier}`. -/
def storageKeyOf (identifier : String) : String := "rl:" ++ identifier

/-- C9: rate-limit key injectivity — for the same path, distinct identity
bases give distinct storage keys, and for the same identity base, distinct
paths give distinct storage keys. -/
theorem rate_limit_key_injective (id1 id2 p1 p2 : String) :
    (id1 ≠ id2 →
      storageKeyOf (identifierOf id1 p1) ≠ storageKeyOf (identifierOf id2 p1)) ∧
    (p1 ≠ p2 →
      storageKeyOf (identifierOf id1 p1) ≠ storageKeyOf (identifierOf id1 p2)) := by
  constructor
  · intro hne heq
    apply hne
    apply String.ext
    have hd := congrArg String.data heq
    simp only [storageKeyOf, identifierOf, String.data_append, List.append_assoc] at hd
    exact List.append_cancel_right (List.append_cancel_left hd)
  · intro hne heq
    apply hne
    apply String.ext
    have hd := congrArg String.data heq
    simp only [storageKeyOf, identifierOf, String.data_append, List.append_assoc] at hd
    exact List.append_cancel_left (List.append_cancel_left (List.append_cancel_left hd))

/-- Witness for C9 on concrete identities `user:1`, `user:2` and paths
`/a`, `/b`. -/
theorem rate_limit_key_injective_witness :
    ("user:1" ≠ ("user:2" : String)) ∧ ("/a" ≠ ("/b" : String)) ∧
    storageKeyOf (identifierOf "user:1" "/a") ≠
      storageKeyOf (identifierOf "user:2" "/a") ∧
    storageKeyOf (identifierOf "user:1" "/a") ≠
      storageKeyOf (identifierOf "user:1" "/b") :=
  ⟨by decide, by decide,
   (rate_limit_key_injective "user:1" "user:2" "/a" "/b").1 (by decide),
   (rate_limit_key_injective "user:1" "user:2" "/a" "/b").2 (by decide)⟩

/-- The `detection` option from `src/types.ts`. -/
inductive Detection where
  | ip
  | user
  | ipAndUser
  deriving Repr, DecidableEq

/-- `resolveIdentifier` from `src/index.ts` (lines 109–129).  The session
lookup `getSessionFromCtx(ctx)` is embedded by the outcome of its promise,
`sessionRes` (`.ok` with an optional session user id, `.error` for a
throw/rejection); the source's `.catch(() => null)` is the inner match
mapping `.error` to no session.  `getIp` is the boundary input `ip`. -/
def resolveIdentifier (detection : Detection)
    (sessionRes : Except Unit (Option String)) (ip : Option String)
    (path : String) : Option String :=
  let fromSession : Option (Option String) :=
    if detection = Detection.user ∨ detection = Detection.ipAndUser then
      match (match sessionRes with | .error _ => none | .ok s => s) with
      | some uid => some (some (identifierOf ("user:" ++ uid) path))
      | none => if detection = Detection.user then some none else none
    else none
  match fromSession with
  | some r => r
  | none =>
    match ip with
    | none => none
    | some ipStr => some (identifierOf ipStr path)

/-- The `checkRateLimit` endpoint from identifier resolution onward
(`src/index.ts` lines 197–265): resolve the identifier; if none, admit with
full quota and no store access; otherwise run window accounting against the
store under key `rl:${identifier}`. -/
def checkWithIdentity (currentMax currentWindow : Int) (detection : Detection)
    (sessionRes : Except Unit (Option String)) (ip : Option String)
    (path : String) (now : Int) (st : Option RateLimitEntry) :
    CheckRateLimitResponse × Option RateLimitEntry :=
  match resolveIdentifier detection sessionRes ip path with
  | none => ({ success := true, limit := currentMax, remaining := currentMax }, st)
  | some identifier =>
      checkStep currentMax currentWindow (storageKeyOf identifier) now st

/-- C8: when no identity can be determined the engine returns
`success = true, limit = maxRequests, remaining = maxRequests` with no
`retryAfter`, `resetAt` or `message`, and the window store is left exactly
as it was; and a session lookup that throws/rejects resolves identically to
one that finds no session. -/
theorem no_identity_bypass (currentMax currentWindow : Int) (detection : Detection)
    (sessionRes : Except Unit (Option String)) (ip : Option String)
    (path : String) (now : Int) (st : Option RateLimitEntry)
    (h : resolveIdentifier detection sessionRes ip path = none) :
    checkWithIdentity currentMax currentWindow detection sessionRes ip path now st =
      ({ success := true, limit := currentMax, remaining := currentMax,
         retryAfter := none, resetAt := none, message := none }, st) ∧
    (∀ e : Unit, resolveIdentifier detection (.error e) ip path =
      resolveIdentifier detection (.ok none) ip path) := by
  constructor
  · simp [checkWithIdentity, h]
  · intro e
    rfl

/-- Witness for C8: detection mode `user`, a session lookup that throws, an
available client IP, and a populated store. -/
theorem no_identity_bypass_witness :
    resolveIdentifier Detection.user (Except.error ()) (some "1.2.3.4") "/a" = none ∧
    checkWithIdentity 5 1 Detection.user (Except.error ()) (some "1.2.3.4") "/a" 0
        (some ⟨"rl:x", 3, 0⟩) =
      ({ success := true, limit := 5, remaining := 5, retryAfter := none,
         resetAt := none, message := none }, some ⟨"rl:x", 3, 0⟩) :=
  ⟨by decide,
   (no_identity_bypass 5 1 Detection.user (Except.error ()) (some "1.2.3.4") "/a" 0
     (some ⟨"rl:x", 3, 0⟩) (by decide)).1⟩

/-- `createDatabaseStorage(...).get` from `src/storage.ts` (lines 65–78).
The underlying adapter call `db.findMany` is embedded by its outcome
`findRes` (`.ok` with the matching rows, `.error` for a throw/rejection).
The body has no try/catch, so an adapter error propagates to the caller; on
success the first row (or absence) is returned (the `bigint` normalization
of `lastRequest` is the identity in this embedding). -/
def dbStorageGet (findRes : Except String (List RateLimitEntry)) :
    Except String (Option RateLimitEntry) :=
  match findRes with
  | .error e => .error e
  | .ok res => .ok res.head?

/-- `createDatabaseStorage(...).set` from `src/storage.ts` (lines 79–103).
The underlying adapter call (`db.updateMany` when the `update` flag is set,
`db.create` otherwise) is embedded by its outcome `opRes`; the body wraps it
in try/catch and logs `"Error setting rate limit"` on failure, so `set`
always returns normally.  The `.ok` payload carries the log lines emitted. -/
def dbStorageSet (opRes : Except String Unit) : Except String (List String) :=
  match opRes with
  | .ok _ => .ok []
  | .error _ => .ok ["Error setting rate limit"]

/-- C4 counterexample: a failing read against the database backend is *not*
caught — `get` propagates the adapter error instead of treating the store as
absent. -/
theorem storage_fail_open_cex :
    dbStorageGet (Except.error "database unavailable") =
      Except.error "database unavailable" ∧
    dbStorageGet (Except.error "database unavailable") ≠
      Except.ok none :=
  ⟨rfl, fun h => Except.noConfusion h⟩

/-- C4 (amended): every `set` against the database backend catches and logs
the adapter error and never propagates it, while a `get` whose adapter call
fails propagates the error unchanged to the caller (reads are not
fail-open). -/
theorem db_set_fail_open (opRes : Except String Unit) (e : String) :
    (∃ logs, dbStorageSet opRes = Except.ok logs) ∧
    dbStorageGet (Except.error e) = Except.error e := by
  refine ⟨?_, rfl⟩
  match opRes with
  | .ok _ => exact ⟨[], rfl⟩
  | .error _ => exact ⟨["Error setting rate limit"], rfl⟩

/-- JavaScript `segment.split("*")` on char lists (`src/index.ts` line 64):
split at every occurrence of `*`. -/
def splitOnStarL : List Char → List (List Char)
  | [] => [[]]
  | c :: rest =>
    if c = '*' then [] :: splitOnStarL rest
    else
      match splitOnStarL rest with
      | [] => [[c]]
      | seg :: segs => (c :: seg) :: segs

/-- JavaScript `pattern.split("**")` on char lists (`src/index.ts` line 61):
split at every non-overlapping occurrence of `**`, scanning left to right. -/
def splitOnDoubleStar : List Char → List (List Char)
  | [] => [[]]
  | [c] => [[c]]
  | c1 :: c2 :: rest =>
    if c1 = '*' ∧ c2 = '*' then [] :: splitOnDoubleStar rest
    else
      match splitOnDoubleStar (c2 :: rest) with
      | [] => [[c1]]
      | seg :: segs => (c1 :: seg) :: segs

/-- One piece of the regex string built by `matchPath` (`src/index.ts` lines
60–68): an escaped literal segment, `[^/]*` (from a single `*`), or `.*`
(from `**`).  The `RegExp` is constructed without the `s` flag, so the `.`
of `.*` matches any character except the ECMAScript line terminators
(`\n`, `\r`, U+2028, U+2029), while the negated class `[^/]*` matches any
character except `/`, line terminators included. -/
inductive GlobTok where
  | lit (l : List Char)
  | star
  | dstar
  deriving Repr, DecidableEq

/-- `.join("[^/]*")` over the single-star split (`src/index.ts` line 66). -/
def joinStar : List (List Char) → List GlobTok
  | [] => []
  | s :: rest =>
    match rest with
    | [] => [GlobTok.lit s]
    | _ :: _ => GlobTok.lit s :: GlobTok.star :: joinStar rest

/-- `.join(".*")` over the double-star split (`src/index.ts` line 68). -/
def joinDStar : List (List GlobTok) → List GlobTok
  | [] => []
  | t :: rest =>
    match rest with
    | [] => t
    | _ :: _ => t ++ GlobTok.dstar :: joinDStar rest

/-- The token sequence denoted by the regex string `matchPath` compiles for a
pattern: split on `**`, split each piece on `*`, escape the remaining
literal segments (escaping makes every character of a segment literal, so a
segment denotes exactly `GlobTok.lit` of itself), and join with `[^/]*`
inside the pieces and `.*` between them. -/
def globTokens (p : List Char) : List GlobTok :=
  joinDStar ((splitOnDoubleStar p).map fun seg => joinStar (splitOnStarL seg))

/-- Consume a literal from the front of the input: `leadsWith l cs` is
`some rest` when `cs = l ++ rest`, else `none`. -/
def leadsWith : List Char → List Char → Option (List Char)
  | [], cs => some cs
  | _ :: _, [] => none
  | l :: ls, c :: cs => if l = c then leadsWith ls cs else none

theorem leadsWith_length :
    ∀ (l cs rest : List Char), leadsWith l cs = some rest →
      rest.length ≤ cs.length := by
  intro l
  induction l with
  | nil =>
    intro cs rest h
    simp only [leadsWith, Option.some.injEq] at h
    subst h
    exact le_rfl
  | cons x ls ih =>
    intro cs rest h
    cases cs with
    | nil => simp [leadsWith] at h
    | cons c cs' =>
      simp only [leadsWith] at h
      by_cases hx : x = c
      · rw [if_pos hx] at h
        exact le_trans (ih cs' rest h) (Nat.le_succ _)
      · rw [if_neg hx] at h
        exact absurd h (by simp)

/-- The ECMAScript line terminators, which `.` does not match in a `RegExp`
built without the `s` flag: LF, CR, LINE SEPARATOR and PARAGRAPH
SEPARATOR. -/
def isLineTerminator (c : Char) : Bool :=
  c == '\n' || c == '\r' || c == '\u2028' || c == '\u2029'

/-- The matching semantics of the compiled regex `^ tokens $`
(`src/index.ts` lines 69–72): a literal consumes itself, `[^/]*` consumes
any run of non-separator characters (line terminators included), `.*`
consumes any run of non-line-terminator characters (no `s` flag), and the
whole input must be consumed. -/
def tokMatch : List GlobTok → List Char → Bool
  | [], [] => true
  | [], _ :: _ => false
  | GlobTok.lit l :: ts, cs =>
    match h : leadsWith l cs with
    | some rest => tokMatch ts rest
    | none => false
  | GlobTok.star :: ts, [] => tokMatch ts []
  | GlobTok.star :: ts, c :: cs' =>
    tokMatch ts (c :: cs') || (decide (c ≠ '/') && tokMatch (GlobTok.star :: ts) cs')
  | GlobTok.dstar :: ts, [] => tokMatch ts []
  | GlobTok.dstar :: ts, c :: cs' =>
    tokMatch ts (c :: cs') || (!isLineTerminator c && tokMatch (GlobTok.dstar :: ts) cs')
termination_by ts cs => cs.length + ts.length
decreasing_by
  · have hlen := leadsWith_length l cs rest h
    simp only [List.length_cons]
    omega
  · simp only [List.length_cons]
    omega
  · simp only [List.length_cons]
    omega
  · simp only [List.length_cons]
    omega
  · simp only [List.length_cons]
    omega
  · simp only [List.length_cons]
    omega
  · simp only [List.length_cons]
    omega

/-- `matchPath` from `src/index.ts` (lines 50–73) on char lists: a pattern
without `*` matches only the identical literal path; otherwise the compiled
regex (here its token denotation) is tested against the whole path.  The
per-pattern `RegExp` cache only memoizes compilation and does not change the
result, so it is not part of the embedding. -/
def matchPath (pattern path : List Char) : Bool :=
  if '*' ∈ pattern then tokMatch (globTokens pattern) path
  else pattern == path

theorem splitOnStarL_no_star (cs : List Char) (h : '*' ∉ cs) :
    splitOnStarL cs = [cs] := by
  induction cs with
  | nil => rfl
  | cons c rest ih =>
    have hc : ¬ (c = '*') := fun hc => h (by simp [hc])
    have hrest : '*' ∉ rest := fun hr => h (List.mem_cons_of_mem c hr)
    rw [splitOnStarL, if_neg hc, ih hrest]

theorem splitOnStarL_single (a b : List Char) (ha : '*' ∉ a) (hb : '*' ∉ b) :
    splitOnStarL (a ++ '*' :: b) = [a, b] := by
  induction a with
  | nil =>
    rw [List.nil_append, splitOnStarL, if_pos rfl, splitOnStarL_no_star b hb]
  | cons c a' ih =>
    have hc : ¬ (c = '*') := fun hc => ha (by simp [hc])
    have ha' : '*' ∉ a' := fun hr => ha (List.mem_cons_of_mem c hr)
    rw [List.cons_append, splitOnStarL, if_neg hc, ih ha']

theorem splitOnDoubleStar_no_star (cs : List Char) (h : '*' ∉ cs) :
    splitOnDoubleStar cs = [cs] := by
  induction cs with
  | nil => rfl
  | cons c rest ih =>
    have hc : ¬ (c = '*') := fun hc => h (by simp [hc])
    have hrest : '*' ∉ rest := fun hr => h (List.mem_cons_of_mem c hr)
    cases rest with
    | nil => rfl
    | cons c2 rest' =>
      rw [splitOnDoubleStar, if_neg (fun hp => hc hp.1), ih hrest]

theorem splitOnDoubleStar_single (a b : List Char) (ha : '*' ∉ a) (hb : '*' ∉ b) :
    splitOnDoubleStar (a ++ '*' :: b) = [a ++ '*' :: b] := by
  induction a with
  | nil =>
    rw [List.nil_append]
    cases b with
    | nil => rfl
    | cons c2 b' =>
      have hc2 : ¬ (c2 = '*') := fun hc => hb (by simp [hc])
      rw [splitOnDoubleStar, if_neg (fun hp => hc2 hp.2),
        splitOnDoubleStar_no_star (c2 :: b') hb]
  | cons c a' ih =>
    have hc : ¬ (c = '*') := fun hc => ha (by simp [hc])
    have ha' : '*' ∉ a' := fun hr => ha (List.mem_cons_of_mem c hr)
    cases hsplit : a' ++ '*' :: b with
    | nil => exact absurd hsplit (by simp)
    | cons c2 rest' =>
      rw [List.cons_append, hsplit, splitOnDoubleStar,
        if_neg (fun hp => hc hp.1), ← hsplit, ih ha']

theorem splitOnDoubleStar_double (a b : List Char) (ha : '*' ∉ a) (hb : '*' ∉ b) :
    splitOnDoubleStar (a ++ '*' :: '*' :: b) = [a, b] := by
  induction a with
  | nil =>
    rw [List.nil_append, splitOnDoubleStar, if_pos ⟨rfl, rfl⟩,
      splitOnDoubleStar_no_star b hb]
  | cons c a' ih =>
    have hc : ¬ (c = '*') := fun hc => ha (by simp [hc])
    have ha' : '*' ∉ a' := fun hr => ha (List.mem_cons_of_mem c hr)
    cases hsplit : a' ++ '*' :: '*' :: b with
    | nil => exact absurd hsplit (by simp)
    | cons c2 rest' =>
      rw [List.cons_append, hsplit, splitOnDoubleStar,
        if_neg (fun hp => hc hp.1), ← hsplit, ih ha']

theorem globTokens_single_star (a b : List Char) (ha : '*' ∉ a) (hb : '*' ∉ b) :
    globTokens (a ++ '*' :: b) = [GlobTok.lit a, GlobTok.star, GlobTok.lit b] := by
  rw [globTokens, splitOnDoubleStar_single a b ha hb, List.map_cons, List.map_nil,
    splitOnStarL_single a b ha hb]
  rfl

theorem globTokens_double_star (a b : List Char) (ha : '*' ∉ a) (hb : '*' ∉ b) :
    globTokens (a ++ '*' :: '*' :: b) =
      [GlobTok.lit a, GlobTok.dstar, GlobTok.lit b] := by
  rw [globTokens, splitOnDoubleStar_double a b ha hb, List.map_cons, List.map_cons,
    List.map_nil, splitOnStarL_no_star a ha, splitOnStarL_no_star b hb]
  rfl

theorem leadsWith_eq_some_iff :
    ∀ (l cs rest : List Char), leadsWith l cs = some rest ↔ cs = l ++ rest := by
  intro l
  induction l with
  | nil =>
    intro cs rest
    simp [leadsWith]
  | cons x ls ih =>
    intro cs rest
    cases cs with
    | nil => simp [leadsWith]
    | cons c cs' =>
      simp only [leadsWith, List.cons_append, List.cons.injEq]
      by_cases hx : x = c
      · subst hx
        rw [if_pos rfl]
        simp [ih]
      · rw [if_neg hx]
        constructor
        · intro h
          exact absurd h (by simp)
        · rintro ⟨h1, h2⟩
          exact absurd h1.symm hx

theorem tokMatch_nil_iff (cs : List Char) : tokMatch [] cs = true ↔ cs = [] := by
  cases cs <;> simp [tokMatch]

theorem tokMatch_lit_iff (l : List Char) (ts : List GlobTok) (cs : List Char) :
    tokMatch (GlobTok.lit l :: ts) cs = true ↔
      ∃ rest, cs = l ++ rest ∧ tokMatch ts rest = true := by
  rw [tokMatch]
  constructor
  · intro h
    cases hl : leadsWith l cs with
    | none => rw [hl] at h; exact absurd h (by simp)
    | some rest =>
      rw [hl] at h
      exact ⟨rest, (leadsWith_eq_some_iff l cs rest).mp hl, h⟩
  · rintro ⟨rest, hcs, h⟩
    rw [(leadsWith_eq_some_iff l cs rest).mpr hcs]
    exact h

theorem tokMatch_star_iff (ts : List GlobTok) (cs : List Char) :
    tokMatch (GlobTok.star :: ts) cs = true ↔
      ∃ mid rest, (∀ c ∈ mid, c ≠ '/') ∧ cs = mid ++ rest ∧
        tokMatch ts rest = true := by
  induction cs with
  | nil =>
    rw [tokMatch]
    constructor
    · intro h
      exact ⟨[], [], by simp, rfl, h⟩
    · rintro ⟨mid, rest, _, heq, h⟩
      obtain ⟨rfl, rfl⟩ := List.append_eq_nil.mp heq.symm
      exact h
  | cons c cs' ih =>
    rw [tokMatch]
    simp only [Bool.or_eq_true, Bool.and_eq_true, decide_eq_true_eq]
    constructor
    · rintro (h | ⟨hc, h⟩)
      · exact ⟨[], c :: cs', by simp, rfl, h⟩
      · obtain ⟨mid, rest, hmid, heq, hm⟩ := ih.mp h
        refine ⟨c :: mid, rest, ?_, by rw [List.cons_append, heq], hm⟩
        intro x hx
        rcases List.mem_cons.mp hx with rfl | hx
        · exact hc
        · exact hmid x hx
    · rintro ⟨mid, rest, hmid, heq, hm⟩
      cases mid with
      | nil =>
        rw [List.nil_append] at heq
        exact Or.inl (heq ▸ hm)
      | cons m mid' =>
        rw [List.cons_append, List.cons.injEq] at heq
        obtain ⟨rfl, heq'⟩ := heq
        refine Or.inr ⟨hmid c (by simp), ih.mpr ⟨mid', rest, ?_, heq', hm⟩⟩
        intro x hx
        exact hmid x (List.mem_cons_of_mem c hx)

theorem tokMatch_dstar_iff (ts : List GlobTok) (cs : List Char) :
    tokMatch (GlobTok.dstar :: ts) cs = true ↔
      ∃ mid rest, (∀ c ∈ mid, isLineTerminator c = false) ∧ cs = mid ++ rest ∧
        tokMatch ts rest = true := by
  induction cs with
  | nil =>
    rw [tokMatch]
    constructor
    · intro h
      exact ⟨[], [], by simp, rfl, h⟩
    · rintro ⟨mid, rest, _, heq, h⟩
      obtain ⟨rfl, rfl⟩ := List.append_eq_nil.mp heq.symm
      exact h
  | cons c cs' ih =>
    rw [tokMatch]
    simp only [Bool.or_eq_true, Bool.and_eq_true, Bool.not_eq_true']
    constructor
    · rintro (h | ⟨hc, h⟩)
      · exact ⟨[], c :: cs', by simp, rfl, h⟩
      · obtain ⟨mid, rest, hmid, heq, hm⟩ := ih.mp h
        refine ⟨c :: mid, rest, ?_, by rw [List.cons_append, heq], hm⟩
        intro x hx
        rcases List.mem_cons.mp hx with rfl | hx
        · exact hc
        · exact hmid x hx
    · rintro ⟨mid, rest, hmid, heq, hm⟩
      cases mid with
      | nil =>
        rw [List.nil_append] at heq
        exact Or.inl (heq ▸ hm)
      | cons m mid' =>
        rw [List.cons_append, List.cons.injEq] at heq
        obtain ⟨rfl, heq'⟩ := heq
        refine Or.inr ⟨hmid c (by simp), ih.mpr ⟨mid', rest, ?_, heq', hm⟩⟩
        intro x hx
        exact hmid x (List.mem_cons_of_mem c hx)

theorem tokMatch_lit_star_lit_iff (a b cs : List Char) :
    tokMatch [GlobTok.lit a, GlobTok.star, GlobTok.lit b] cs = true ↔
      ∃ mid, (∀ c ∈ mid, c ≠ '/') ∧ cs = a ++ mid ++ b := by
  rw [tokMatch_lit_iff]
  constructor
  · rintro ⟨rest, rfl, h⟩
    rw [tokMatch_star_iff] at h
    obtain ⟨mid, rest2, hmid, rfl, hb⟩ := h
    rw [tokMatch_lit_iff] at hb
    obtain ⟨rest3, rfl, hnil⟩ := hb
    rw [tokMatch_nil_iff] at hnil
    subst hnil
    exact ⟨mid, hmid, by simp⟩
  · rintro ⟨mid, hmid, rfl⟩
    refine ⟨mid ++ b, by simp, ?_⟩
    rw [tokMatch_star_iff]
    refine ⟨mid, b, hmid, rfl, ?_⟩
    rw [tokMatch_lit_iff]
    exact ⟨[], by simp, by rw [tokMatch_nil_iff]⟩

theorem tokMatch_lit_dstar_lit_iff (a b cs : List Char) :
    tokMatch [GlobTok.lit a, GlobTok.dstar, GlobTok.lit b] cs = true ↔
      ∃ mid, (∀ c ∈ mid, isLineTerminator c = false) ∧ cs = a ++ mid ++ b := by
  rw [tokMatch_lit_iff]
  constructor
  · rintro ⟨rest, rfl, h⟩
    rw [tokMatch_dstar_iff] at h
    obtain ⟨mid, rest2, hmid, rfl, hb⟩ := h
    rw [tokMatch_lit_iff] at hb
    obtain ⟨rest3, rfl, hnil⟩ := hb
    rw [tokMatch_nil_iff] at hnil
    subst hnil
    exact ⟨mid, hmid, by simp⟩
  · rintro ⟨mid, hmid, rfl⟩
    refine ⟨mid ++ b, by simp, ?_⟩
    rw [tokMatch_dstar_iff]
    refine ⟨mid, b, hmid, rfl, ?_⟩
    rw [tokMatch_lit_iff]
    exact ⟨[], by simp, by rw [tokMatch_nil_iff]⟩

/-- C7 (amended): pattern matcher semantics.  A wildcard-free pattern
matches exactly the identical literal path (all characters literal); the
empty pattern matches only the empty path; a single `*` between
wildcard-free pieces matches exactly the paths with any run of non-`/`
characters (line terminators included) in its place; `**` between
wildcard-free pieces matches exactly the paths with any run of characters
including the separator but excluding the ECMAScript line terminators in
its place — `**` compiles to `.*` in a `RegExp` built without the `s` flag,
and `.` does not match line terminators. -/
theorem match_path_spec (p a b s : List Char)
    (hp : '*' ∉ p) (ha : '*' ∉ a) (hb : '*' ∉ b) :
    (matchPath p s = true ↔ p = s) ∧
    (matchPath [] s = true ↔ s = []) ∧
    (matchPath (a ++ '*' :: b) s = true ↔
      ∃ mid, (∀ c ∈ mid, c ≠ '/') ∧ s = a ++ mid ++ b) ∧
    (matchPath (a ++ '*' :: '*' :: b) s = true ↔
      ∃ mid, (∀ c ∈ mid, isLineTerminator c = false) ∧ s = a ++ mid ++ b) := by
  refine ⟨?_, ?_, ?_, ?_⟩
  · rw [matchPath, if_neg hp]
    exact beq_iff_eq
  · rw [matchPath, if_neg (by simp)]
    exact ⟨fun h => (beq_iff_eq.mp h).symm, fun h => beq_iff_eq.mpr h.symm⟩
  · rw [matchPath, if_pos (by simp), globTokens_single_star a b ha hb,
      tokMatch_lit_star_lit_iff]
  · rw [matchPath, if_pos (by simp), globTokens_double_star a b ha hb,
      tokMatch_lit_dstar_lit_iff]

/-- C7 counterexample: `**` compiles to `.*` in a `RegExp` without the `s`
flag, where `.` does not match line terminators, so the pattern `/a/**`
does **not** match the path `/a/x<LF>y` even though that path is `/a/`
followed by a run of characters — refuting "`**` matches any run of
characters". -/
theorem match_path_dstar_cex :
    (['/', 'a', '/', 'x', '\n', 'y'] : List Char) =
      ['/', 'a', '/'] ++ ['x', '\n', 'y'] ++ [] ∧
    matchPath ['/', 'a', '/', '*', '*'] ['/', 'a', '/', 'x', '\n', 'y'] = false := by
  refine ⟨by decide, ?_⟩
  have hg : globTokens ['/', 'a', '/', '*', '*'] =
      [GlobTok.lit ['/', 'a', '/'], GlobTok.dstar, GlobTok.lit []] := by
    have h := globTokens_double_star ['/', 'a', '/'] [] (by decide) (by decide)
    simpa using h
  rw [matchPath, if_pos (by decide), hg]
  cases hb : tokMatch [GlobTok.lit ['/', 'a', '/'], GlobTok.dstar, GlobTok.lit []]
      ['/', 'a', '/', 'x', '\n', 'y'] with
  | false => rfl
  | true =>
    exfalso
    obtain ⟨mid, hmid, heq⟩ := (tokMatch_lit_dstar_lit_iff ['/', 'a', '/'] []
      ['/', 'a', '/', 'x', '\n', 'y']).mp hb
    rw [List.append_nil] at heq
    have h2 : ['/', 'a', '/'] ++ ['x', '\n', 'y'] = ['/', 'a', '/'] ++ mid := heq
    have hmideq : ['x', '\n', 'y'] = mid := List.append_cancel_left h2
    exact absurd (hmid '\n' (by rw [← hmideq]; decide)) (by decide)

/-- Witness for C7 on the pattern `/a/*` against the path `/a/c`
(and the wildcard-free pattern `/x`). -/
theorem match_path_spec_witness :
    matchPath ['/', 'a', '/', '*'] ['/', 'a', '/', 'c'] = true ∧
    matchPath ['/', 'x'] ['/', 'x'] = true :=
  ⟨(match_path_spec ['/', 'x'] ['/', 'a', '/'] [] ['/', 'a', '/', 'c']
      (by decide) (by decide) (by decide)).2.2.1.mpr
      ⟨['c'], by decide, by decide⟩,
   (match_path_spec ['/', 'x'] ['/', 'a', '/'] [] ['/', 'x']
      (by decide) (by decide) (by decide)).1.mpr rfl⟩

/-- List-level unfolding of `runSteps` on a nonempty request list. -/
theorem runSteps_fst_cons {σ : Type} (step : Int → σ → CheckRateLimitResponse × σ)
    (t : Int) (ts : List Int) (st : σ) :
    (runSteps step (t :: ts) st).1 =
      (step t st).1 :: (runSteps step ts (step t st).2).1 := rfl

/-- `checkCore` on an absent entry: the create branch. -/
theorem checkCore_none (currentMax currentWindow now : Int) (key : String) :
    checkCore currentMax currentWindow now key none =
      ({ success := true, limit := currentMax, remaining := currentMax - 1,
         resetAt := some (now + currentWindow * 1000) },
       some (.create ⟨key, 1, now⟩)) := rfl

/-- `checkCore` on a rejected request: the early-return branch, no write. -/
theorem checkCore_reject (currentMax currentWindow now : Int) (key : String)
    (d : RateLimitEntry)
    (hS : shouldRateLimit currentMax currentWindow d now = true) :
    checkCore currentMax currentWindow now key (some d) =
      ({ success := false, limit := currentMax, remaining := 0,
         retryAfter := some (getRetryAfter d.lastRequest currentWindow now),
         resetAt := some (d.lastRequest + currentWindow * 1000),
         message := some rateLimitedMessage }, none) := by
  simp [checkCore, hS]

/-- `checkCore` on an elapsed window (strictly past `windowMs`): the reset
branch. -/
theorem checkCore_reset (currentMax currentWindow now : Int) (key : String)
    (d : RateLimitEntry) (h : now - d.lastRequest > currentWindow * 1000) :
    checkCore currentMax currentWindow now key (some d) =
      ({ success := true, limit := currentMax, remaining := currentMax - 1,
         resetAt := some (now + currentWindow * 1000) },
       some (.update { d with count := 1, lastRequest := now })) := by
  have h1 : ¬ (now - d.lastRequest < currentWindow * 1000) := by omega
  simp [checkCore, shouldRateLimit, h1, h]

/-- `checkCore` on a live under-limit window: the increment branch. -/
theorem checkCore_incr (currentMax currentWindow now : Int) (key : String)
    (d : RateLimitEntry)
    (hS : shouldRateLimit currentMax currentWindow d now = false)
    (hle : ¬ (now - d.lastRequest > currentWindow * 1000)) :
    checkCore currentMax currentWindow now key (some d) =
      ({ success := true, limit := currentMax,
         remaining := max 0 (currentMax - (d.count + 1)),
         resetAt := some (d.lastRequest + currentWindow * 1000) },
       some (.update { d with count := d.count + 1 })) := by
  simp [checkCore, hS, hle]

/-- `MemoryEntry` from `src/storage.ts` (lines 9–12). -/
structure MemoryEntry where
  data : RateLimitEntry
  expiresAt : Int
  deriving Repr, DecidableEq

/-- `createMemoryStorage(...).get` (`src/storage.ts` lines 17–27), single-key
view: absent gives `null`; an entry with `Date.now() ≥ expiresAt` is deleted
and `null` returned; otherwise the stored data.  Returns the read result and
the post-read map slot. -/
def memGet (now : Int) (st : Option MemoryEntry) :
    Option RateLimitEntry × Option MemoryEntry :=
  match st with
  | none => (none, none)
  | some e => if now ≥ e.expiresAt then (none, none) else (some e.data, some e)

/-- `createMemoryStorage(...).set` (`src/storage.ts` lines 28–31): store the
value with `expiresAt = Date.now() + defaultWindow * 1000`; the `update`
flag is ignored. -/
def memSet (defaultWindow now : Int) (value : RateLimitEntry) : Option MemoryEntry :=
  some ⟨value, now + defaultWindow * 1000⟩

/-- One `checkRateLimit` call against the memory backend (storage TTL driven
by the configured `defaultWindow`, accounting by the resolved rule's
`currentMax`/`currentWindow`). -/
def memStep (defaultWindow currentMax currentWindow : Int) (key : String)
    (now : Int) (st : Option MemoryEntry) :
    CheckRateLimitResponse × Option MemoryEntry :=
  let read := memGet now st
  match checkCore currentMax currentWindow now key read.1 with
  | (resp, none) => (resp, read.2)
  | (resp, some (.create e)) => (resp, memSet defaultWindow now e)
  | (resp, some (.update e)) => (resp, memSet defaultWindow now e)

/-- `createDatabaseStorage(...).set` (`src/storage.ts` lines 79–103),
single-key view: with the `update` flag it is `updateMany` by key, writing
`count` and `lastRequest` onto the matching row and doing nothing when no
row matches; without the flag it is `db.create`, whose unique-key failure on
an already existing row is caught and logged by the surrounding try/catch,
leaving the row unchanged. -/
def dbSet (st : Option RateLimitEntry) (value : RateLimitEntry) (update : Bool) :
    Option RateLimitEntry :=
  if update then
    match st with
    | some old => some { old with count := value.count, lastRequest := value.lastRequest }
    | none => none
  else
    match st with
    | none => some value
    | some old => some old

/-- One `checkRateLimit` call against the database backend: `get` is an
exact-key lookup with no expiry (`src/storage.ts` lines 65–78). -/
def dbStep (currentMax currentWindow : Int) (key : String) (now : Int)
    (st : Option RateLimitEntry) :
    CheckRateLimitResponse × Option RateLimitEntry :=
  match checkCore currentMax currentWindow now key st with
  | (resp, none) => (resp, st)
  | (resp, some (.create e)) => (resp, dbSet st e false)
  | (resp, some (.update e)) => (resp, dbSet st e true)

/-- Modelled from the spec: the external TTL cache collaborator
(`secondaryStorage`, e.g. Redis) is not part of `src/`; spec §4.4/§6 give it
`get(key) -> string|null`, `set(key, value, ttlSeconds)` with values
expiring after the TTL.  The stored serialized string is modelled by the
entry it encodes (the `JSON.stringify`/`JSON.parse` round-trip of
`createSecondaryStorageWrapper` is the identity on well-formed entries) and
expiry by `now ≥ setTime + ttl * 1000`, the same lazy-expiry boundary the
repository's own test mock implements (`test/rate-limiter.test.ts`). -/
structure CacheEntry where
  value : RateLimitEntry
  expiresAt : Int
  deriving Repr, DecidableEq

/-- `createSecondaryStorageWrapper(...).get` (`src/storage.ts` lines 40–50)
composed with the modelled TTL cache: absent or expired keys give `null`;
a stored string parses back to the entry it encodes. -/
def secGet (now : Int) (st : Option CacheEntry) : Option RateLimitEntry :=
  match st with
  | none => none
  | some e => if now ≥ e.expiresAt then none else some e.value

/-- `createSecondaryStorageWrapper(...).set` (`src/storage.ts` lines 51–58):
serialize and store with `ttl = defaultWindow` seconds. -/
def secSet (defaultWindow now : Int) (value : RateLimitEntry) : Option CacheEntry :=
  some ⟨value, now + defaultWindow * 1000⟩

/-- One `checkRateLimit` call against the external-cache backend. -/
def secStep (defaultWindow currentMax currentWindow : Int) (key : String)
    (now : Int) (st : Option CacheEntry) :
    CheckRateLimitResponse × Option CacheEntry :=
  match checkCore currentMax currentWindow now key (secGet now st) with
  | (resp, none) => (resp, st)
  | (resp, some (.create e)) => (resp, secSet defaultWindow now e)
  | (resp, some (.update e)) => (resp, secSet defaultWindow now e)

/-- C3 counterexample: same configuration (`max = 2`, rule window = default
window = 1 s), same key, same request times `0` and `1000` ms — the memory
backend expires the entry at exactly `1000` and admits the second request
with `remaining = 1`, while the database backend still holds the entry and
increments it, answering `remaining = 0`; the response sequences differ. -/
theorem backend_equivalence_cex :
    ((runSteps (memStep 1 2 1 "k") [0, 1000] none).1.map
      (fun r => r.remaining) = [1, 1]) ∧
    ((runSteps (dbStep 2 1 "k") [0, 1000] none).1.map
      (fun r => r.remaining) = [1, 0]) ∧
    (runSteps (memStep 1 2 1 "k") [0, 1000] none).1 ≠
      (runSteps (dbStep 2 1 "k") [0, 1000] none).1 := by
  decide

/-- Simulation relation between the memory slot and the database row for one
key, relative to the remaining request times `future`: either both are
absent, or both hold the same entry, the entry's key field is the storage
key, the memory expiry is no earlier than the logical window end, and every
remaining request time is at or after the window start and never exactly
`windowMs` after it. -/
def MemDbInv (W : Int) (key : String) (future : List Int) :
    Option MemoryEntry → Option RateLimitEntry → Prop
  | none, none => True
  | some me, some e =>
      me.data = e ∧ e.key = key ∧ e.lastRequest + W * 1000 ≤ me.expiresAt ∧
      ∀ t ∈ future, e.lastRequest ≤ t ∧ t - e.lastRequest ≠ W * 1000
  | some _, none => False
  | none, some _ => False

theorem memGet_expired (now : Int) (me : MemoryEntry) (h : now ≥ me.expiresAt) :
    memGet now (some me) = (none, none) := by
  simp [memGet, h]

theorem memGet_live (now : Int) (me : MemoryEntry) (h : ¬ (now ≥ me.expiresAt)) :
    memGet now (some me) = (some me.data, some me) := by
  simp [memGet, h]

/-- One-step simulation between the memory backend and the database backend
(same configured window `W` for accounting and TTL): under the invariant and
the boundary condition on the remaining times, one request produces the same
response on both backends and re-establishes the invariant. -/
theorem memDb_step (W M : Int) (key : String) (now : Int) (future : List Int)
    (m : Option MemoryEntry) (d : Option RateLimitEntry)
    (hinv : MemDbInv W key (now :: future) m d)
    (hrel : ∀ t ∈ future, now ≤ t ∧ t - now ≠ W * 1000) :
    (memStep W M W key now m).1 = (dbStep M W key now d).1 ∧
    MemDbInv W key future (memStep W M W key now m).2 (dbStep M W key now d).2 := by
  match m, d with
  | none, some e => exact hinv.elim
  | some me, none => exact hinv.elim
  | none, none =>
    have hm : memStep W M W key now none =
        ({ success := true, limit := M, remaining := M - 1,
           resetAt := some (now + W * 1000) },
         some ⟨⟨key, 1, now⟩, now + W * 1000⟩) := rfl
    have hd : dbStep M W key now none =
        ({ success := true, limit := M, remaining := M - 1,
           resetAt := some (now + W * 1000) },
         some ⟨key, 1, now⟩) := rfl
    rw [hm, hd]
    exact ⟨rfl, rfl, rfl, le_refl _, hrel⟩
  | some me, some e =>
    obtain ⟨hdata, hkey, hexp, hcond⟩ := hinv
    have hnow := hcond now (List.mem_cons_self now future)
    by_cases hex : now ≥ me.expiresAt
    · -- memory slot expired: memory creates afresh, database resets the row
      have hgt : now - e.lastRequest > W * 1000 := by omega
      have hm : memStep W M W key now (some me) =
          ({ success := true, limit := M, remaining := M - 1,
             resetAt := some (now + W * 1000) },
           some ⟨⟨key, 1, now⟩, now + W * 1000⟩) := by
        show (let read := memGet now (some me)
              match checkCore M W now key read.1 with
              | (resp, none) => (resp, read.2)
              | (resp, some (.create e)) => (resp, memSet W now e)
              | (resp, some (.update e)) => (resp, memSet W now e)) = _
        rw [memGet_expired now me hex]
        rfl
      have hd : dbStep M W key now (some e) =
          ({ success := true, limit := M, remaining := M - 1,
             resetAt := some (now + W * 1000) },
           some { e with count := 1, lastRequest := now }) := by
        show (match checkCore M W now key (some e) with
              | (resp, none) => (resp, some e)
              | (resp, some (.create v)) => (resp, dbSet (some e) v false)
              | (resp, some (.update v)) => (resp, dbSet (some e) v true)) = _
        rw [checkCore_reset M W now key e hgt]
        rfl
      rw [hm, hd]
      refine ⟨rfl, ?_, ?_, le_refl _, hrel⟩
      · show (⟨key, 1, now⟩ : RateLimitEntry) = { e with count := 1, lastRequest := now }
        rw [show ({ e with count := 1, lastRequest := now } : RateLimitEntry) =
            ⟨e.key, 1, now⟩ from rfl, hkey]
      · exact hkey
    · -- memory slot live: both backends see the same entry
      have hm0 : memStep W M W key now (some me) =
          (match checkCore M W now key (some e) with
           | (resp, none) => (resp, some me)
           | (resp, some (.create v)) => (resp, memSet W now v)
           | (resp, some (.update v)) => (resp, memSet W now v)) := by
        show (let read := memGet now (some me)
              match checkCore M W now key read.1 with
              | (resp, none) => (resp, read.2)
              | (resp, some (.create v)) => (resp, memSet W now v)
              | (resp, some (.update v)) => (resp, memSet W now v)) = _
        rw [memGet_live now me hex, hdata]
      have hd0 : dbStep M W key now (some e) =
          (match checkCore M W now key (some e) with
           | (resp, none) => (resp, some e)
           | (resp, some (.create v)) => (resp, dbSet (some e) v false)
           | (resp, some (.update v)) => (resp, dbSet (some e) v true)) := rfl
      by_cases hS : shouldRateLimit M W e now
      · -- rejection: no write on either backend
        rw [hm0, hd0, checkCore_reject M W now key e hS]
        refine ⟨rfl, hdata, hkey, hexp, ?_⟩
        intro t ht
        exact hcond t (List.mem_cons_of_mem now ht)
      · by_cases hGt : now - e.lastRequest > W * 1000
        · -- elapsed window: both backends reset
          rw [hm0, hd0, checkCore_reset M W now key e hGt]
          refine ⟨rfl, rfl, hkey, le_refl _, ?_⟩
          intro t ht
          exact hrel t ht
        · -- live window: both backends increment
          have hS' : shouldRateLimit M W e now = false := by
            cases h : shouldRateLimit M W e now
            · rfl
            · exact absurd h hS
          rw [hm0, hd0, checkCore_incr M W now key e hS' hGt]
          refine ⟨rfl, rfl, hkey, ?_, ?_⟩
          · show e.lastRequest + W * 1000 ≤ now + W * 1000
            omega
          · intro t ht
            exact hcond t (List.mem_cons_of_mem now ht)

/-- Sequence-level simulation: the memory and database backends give the same
response sequence from related states, provided request times are
nondecreasing and no two request times differ by exactly `windowMs`. -/
theorem memDb_run (W M : Int) (key : String) :
    ∀ (ts : List Int) (m : Option MemoryEntry) (d : Option RateLimitEntry),
      ts.Pairwise (fun a b => a ≤ b ∧ b - a ≠ W * 1000) →
      MemDbInv W key ts m d →
      (runSteps (memStep W M W key) ts m).1 = (runSteps (dbStep M W key) ts d).1 := by
  intro ts
  induction ts with
  | nil => intro m d _ _; rfl
  | cons t ts ih =>
    intro m d hpair hinv
    rw [List.pairwise_cons] at hpair
    obtain ⟨hrel, hpair'⟩ := hpair
    obtain ⟨h1, h2⟩ := memDb_step W M key t ts m d hinv hrel
    rw [runSteps_fst_cons, runSteps_fst_cons, h1]
    exact congrArg (List.cons (dbStep M W key t d).1) (ih _ _ hpair' h2)

/-- The external-cache slot corresponding to a memory slot (same entry, same
expiry). -/
def cacheOfMem : Option MemoryEntry → Option CacheEntry
  | none => none
  | some me => some ⟨me.data, me.expiresAt⟩

/-- One-step simulation between the external-cache backend and the memory
backend: they behave identically on corresponding slots (same lazy-expiry
boundary, same TTL, `set` ignoring the update flag). -/
theorem memSec_step (W M : Int) (key : String) (now : Int) (m : Option MemoryEntry) :
    (secStep W M W key now (cacheOfMem m)).1 = (memStep W M W key now m).1 ∧
    (secStep W M W key now (cacheOfMem m)).2 =
      cacheOfMem ((memStep W M W key now m).2) := by
  match m with
  | none => exact ⟨rfl, rfl⟩
  | some me =>
    have hsec0 : secStep W M W key now (cacheOfMem (some me)) =
        (match checkCore M W now key
            (if now ≥ me.expiresAt then none else some me.data) with
         | (resp, none) => (resp, cacheOfMem (some me))
         | (resp, some (.create v)) => (resp, secSet W now v)
         | (resp, some (.update v)) => (resp, secSet W now v)) := by
      show (match checkCore M W now key (secGet now (cacheOfMem (some me))) with
            | (resp, none) => (resp, cacheOfMem (some me))
            | (resp, some (.create v)) => (resp, secSet W now v)
            | (resp, some (.update v)) => (resp, secSet W now v)) = _
      rfl
    by_cases hex : now ≥ me.expiresAt
    · have hm : memStep W M W key now (some me) =
          ({ success := true, limit := M, remaining := M - 1,
             resetAt := some (now + W * 1000) },
           some ⟨⟨key, 1, now⟩, now + W * 1000⟩) := by
        show (let read := memGet now (some me)
              match checkCore M W now key read.1 with
              | (resp, none) => (resp, read.2)
              | (resp, some (.create v)) => (resp, memSet W now v)
              | (resp, some (.update v)) => (resp, memSet W now v)) = _
        rw [memGet_expired now me hex]
        rfl
      rw [hsec0, if_pos hex, hm, checkCore_none]
      exact ⟨rfl, rfl⟩
    · have hm0 : memStep W M W key now (some me) =
          (match checkCore M W now key (some me.data) with
           | (resp, none) => (resp, some me)
           | (resp, some (.create v)) => (resp, memSet W now v)
           | (resp, some (.update v)) => (resp, memSet W now v)) := by
        show (let read := memGet now (some me)
              match checkCore M W now key read.1 with
              | (resp, none) => (resp, read.2)
              | (resp, some (.create v)) => (resp, memSet W now v)
              | (resp, some (.update v)) => (resp, memSet W now v)) = _
        rw [memGet_live now me hex]
      rw [hsec0, if_neg hex, hm0]
      cases hcc : checkCore M W now key (some me.data) with
      | mk resp w =>
        match w with
        | none => exact ⟨rfl, rfl⟩
        | some (.create v) => exact ⟨rfl, rfl⟩
        | some (.update v) => exact ⟨rfl, rfl⟩

/-- Sequence-level simulation between the external-cache and memory
backends: identical response sequences from corresponding states, for every
request sequence. -/
theorem memSec_run (W M : Int) (key : String) :
    ∀ (ts : List Int) (m : Option MemoryEntry),
      (runSteps (secStep W M W key) ts (cacheOfMem m)).1 =
        (runSteps (memStep W M W key) ts m).1 := by
  intro ts
  induction ts with
  | nil => intro m; rfl
  | cons t ts ih =>
    intro m
    obtain ⟨h1, h2⟩ := memSec_step W M key t m
    rw [runSteps_fst_cons, runSteps_fst_cons, h1, h2, ih ((memStep W M W key t m).2)]

/-- C3 (amended): with equivalent configuration and the rule window equal to
the configured default window `W`, the memory and external-cache backends
produce identical response sequences for every request sequence, and the
database backend agrees with them provided the request times are
nondecreasing and no two requests for the key are separated by exactly
`windowMs` (at that exact boundary the memory/external-cache entry has just
expired — fresh window, `remaining = max - 1` — while the database still
holds the row and increments it). -/
theorem backend_equivalence_amended (W M : Int) (key : String) (ts : List Int)
    (h : ts.Pairwise fun a b => a ≤ b ∧ b - a ≠ W * 1000) :
    (runSteps (secStep W M W key) ts none).1 =
      (runSteps (memStep W M W key) ts none).1 ∧
    (runSteps (dbStep M W key) ts none).1 =
      (runSteps (memStep W M W key) ts none).1 := by
  constructor
  · exact memSec_run W M key ts none
  · exact (memDb_run W M key ts none none h trivial).symm

/-- Witness for C3 (amended): `max = 2`, window 1 s, requests at
`0, 500, 2001` ms (nondecreasing, never exactly 1000 ms apart). -/
theorem backend_equivalence_amended_witness :
    (([0, 500, 2001] : List Int).Pairwise fun a b => a ≤ b ∧ b - a ≠ 1 * 1000) ∧
    (runSteps (secStep 1 2 1 "k") [0, 500, 2001] none).1 =
      (runSteps (memStep 1 2 1 "k") [0, 500, 2001] none).1 ∧
    (runSteps (dbStep 2 1 "k") [0, 500, 2001] none).1 =
      (runSteps (memStep 1 2 1 "k") [0, 500, 2001] none).1 :=
  ⟨by decide, backend_equivalence_amended 1 2 "k" [0, 500, 2001] (by decide)⟩

end RateLimiter
